import Mathlib

/-!
Verification of the Phone-Detector repository (two Python modules:
a camera-device lister and a YOLO-based phone-detection loop) against its
natural-language specification.  The Python code is shallowly embedded:
strings become lists of characters, the OpenCV capture API becomes boolean
oracles, wall-clock readings become a function from reading index to a
rational, model inference becomes a per-frame list of detections, and every
console print or drawing call becomes an explicit event in an output trace.
-/

/-! ## String helpers (models of Python string operations) -/

/-- Lowercasing a string, modelling Python str.lower on the class names. -/
def lowerChars (s : List Char) : List Char :=
  s.map Char.toLower

/-- hasPre needle hay: does hay start with needle (Python str.startswith). -/
def hasPre : List Char → List Char → Bool
  | [], _ => true
  | _ :: _, [] => false
  | a :: as, b :: bs => a == b && hasPre as bs

/-- hasSub needle hay: does needle occur as a contiguous substring of hay
(Python operator in on strings). -/
def hasSub (needle : List Char) : List Char → Bool
  | [] => hasPre needle []
  | c :: t => hasPre needle (c :: t) || hasSub needle t

/-- hasSuf needle hay: does hay end with needle (Python str.endswith). -/
def hasSuf (needle hay : List Char) : Bool :=
  hasPre needle.reverse hay.reverse

/-- stripChars models Python str.strip: remove leading and trailing
whitespace. -/
def stripChars (s : List Char) : List Char :=
  ((s.dropWhile Char.isWhitespace).reverse.dropWhile Char.isWhitespace).reverse

/-- startsTab models line.startswith of a tab character. -/
def startsTab : List Char → Bool
  | [] => false
  | c :: _ => c == '\t'

/-- Auxiliary worker for splitSub.  The first argument is fuel: each step
consumes at least one character of the remaining input, and splitSub passes
length + 1 fuel, so the fuel-exhausted branch is unreachable; the fuel only
makes the recursion structural. -/
def splitSubAux (sep : List Char) : Nat → List Char → List Char → List (List Char)
  | 0, cur, s => [cur.reverse ++ s]
  | _ + 1, cur, [] => [cur.reverse]
  | fuel + 1, cur, c :: t =>
    if hasPre sep (c :: t) then
      cur.reverse :: splitSubAux sep fuel [] (List.drop (sep.length - 1) t)
    else
      splitSubAux sep fuel (c :: cur) t

/-- splitSub sep s models Python s.split(sep) for a non-empty separator:
split at each leftmost non-overlapping occurrence of sep. -/
def splitSub (sep s : List Char) : List (List Char) :=
  splitSubAux sep (s.length + 1) [] s

/-- Tail of a Python integer-literal digit run: digits, with single
underscores allowed between digits (PEP 515). -/
def pyDigitTail : List Char → Bool
  | [] => true
  | c :: rest =>
    if c == '_' then
      match rest with
      | [] => false
      | d :: rest2 => d.isDigit && pyDigitTail rest2
    else
      c.isDigit && pyDigitTail rest

/-- Non-empty digit run as accepted inside Python int(). -/
def pyDigitSeq : List Char → Bool
  | [] => false
  | c :: rest => c.isDigit && pyDigitTail rest

/-- Numeric value of a list of decimal digit characters. -/
def digitsVal (s : List Char) : Nat :=
  s.foldl (fun a c => 10 * a + (c.toNat - 48)) 0

/-- pyParseInt models Python int() applied to a string: optional surrounding
whitespace, an optional sign, then a non-empty run of decimal digits with
single underscores permitted between digits.  Returns none where Python
raises ValueError. -/
def pyParseInt (s : List Char) : Option Int :=
  match stripChars s with
  | '+' :: rest =>
    if pyDigitSeq rest then some (digitsVal (rest.filter (fun c => !(c == '_'))) : Int) else none
  | '-' :: rest =>
    if pyDigitSeq rest then some (-(digitsVal (rest.filter (fun c => !(c == '_'))) : Int)) else none
  | t =>
    if pyDigitSeq t then some (digitsVal (t.filter (fun c => !(c == '_'))) : Int) else none

/-! ## Device lister: list_camera_indexes (src/list_cameras.py lines 5-15)

The OpenCV capture API is modelled by two oracles: camOpen i is the result
of cv2.VideoCapture(i).isOpened(), and camRead i is the boolean first
component of cap.read() for index i (each index is probed exactly once). -/

/-- Embedding of list_camera_indexes: for i in range(max_tested), open the
capture; if it is opened and a single read succeeds, append i; the loop
accumulates into the indexes list exactly as the source does. -/
def list_camera_indexes (camOpen camRead : Nat → Bool) (max_tested : Nat) : List Nat :=
  (List.range max_tested).foldl
    (fun indexes i =>
      if camOpen i then (if camRead i then indexes ++ [i] else indexes) else indexes)
    []

/-- Events performed on capture handles during probing: construction of the
cv2.VideoCapture object, a cap.read call, and a cap.release call. -/
inductive CamEvent
  | create (i : Nat)
  | read (i : Nat)
  | release (i : Nat)
deriving DecidableEq

/-- Instrumented embedding of list_camera_indexes that also records the
capture-handle events in source order: the constructor always runs; read
and release run only inside the cap.isOpened() branch, release after the
conditional append, exactly as in the source. -/
def list_camera_indexes_traced (camOpen camRead : Nat → Bool) (max_tested : Nat) :
    List Nat × List CamEvent :=
  (List.range max_tested).foldl
    (fun acc i =>
      let acc1 : List Nat × List CamEvent := (acc.1, acc.2 ++ [CamEvent.create i])
      if camOpen i then
        let acc2 : List Nat × List CamEvent := (acc1.1, acc1.2 ++ [CamEvent.read i])
        let acc3 : List Nat × List CamEvent :=
          if camRead i then (acc2.1 ++ [i], acc2.2) else acc2
        (acc3.1, acc3.2 ++ [CamEvent.release i])
      else acc1)
    ([], [])

/-- The per-index segment of the capture-event trace: the handle is always
created; it is read and then released only when the open attempt succeeds. -/
def probeSeg (camOpen : Nat → Bool) (i : Nat) : List CamEvent :=
  CamEvent.create i ::
    (if camOpen i then [CamEvent.read i, CamEvent.release i] else [])

/-! ## Device lister: get_camera_names (src/list_cameras.py lines 17-67) -/

/-- Exceptions that the Python code can raise or handle.  zeroDivision is
ZeroDivisionError, keyboardInterrupt is KeyboardInterrupt, importError is
ImportError, osError stands for any other synchronous Exception (for
example a missing external command). -/
inductive PyExc
  | zeroDivision
  | keyboardInterrupt
  | importError
  | osError
deriving DecidableEq

/-- Name-resolution mapping: Python dict from int index to str-or-None.
Key present with value v is modelled as some v, where v = none is Python
None and v = some s a string. -/
def NamesMap : Type := Int → Option (Option (List Char))

/-- The constant string literal video (split separator). -/
def videoChars : List Char := "video".data

/-- The constant string literal /dev/video (membership guard). -/
def devVideoChars : List Char := "/dev/video".data

/-- The segment Python reads as dev_path.split(sep)[1] for sep = video;
the source only evaluates it under the guard that /dev/video occurs in the
path, which ensures the split has at least two components, so the default
of getD is unreachable. -/
def videoSeg (devPath : List Char) : List Char :=
  (splitSub videoChars devPath).getD 1 []

/-- Embedding of the v4l2-ctl output parsing loop (lines 41-53 of
list_cameras.py).  lines are the split output lines, dn is the running
dev_name (None before any non-indented line), names the dict built so far.
A non-indented line becomes the new dev_name; an indented line is stripped,
and if it contains /dev/video and int(path.split(video)[1]) parses, the
index is bound to the current dev_name; a ValueError is silently passed
over. -/
def parseV4l2Lines : List (List Char) → Option (List Char) → NamesMap → NamesMap
  | [], _, names => names
  | line :: rest, dn, names =>
    if startsTab line then
      let devPath := stripChars line
      if hasSub devVideoChars devPath then
        match pyParseInt (videoSeg devPath) with
        | some idx => parseV4l2Lines rest dn (fun k => if k = idx then some dn else names k)
        | none => parseV4l2Lines rest dn names
      else parseV4l2Lines rest dn names
    else parseV4l2Lines rest (some (stripChars line)) names

/-- Host operating systems distinguished by platform.system(). -/
inductive OSKind
  | windows
  | linux
  | darwin
  | other
deriving DecidableEq

/-- Console messages printed by get_camera_names. -/
inductive ListerEvent
  | tipMsg
  | couldNotRead
deriving DecidableEq

/-- Mapping built by enumerate-style insertion: names[i] = vals[i] for each
position i, as in the Windows and macOS branches. -/
def enumMap (vals : List (List Char)) : NamesMap :=
  vals.enum.foldl
    (fun m p => fun k => if k = (p.1 : Int) then some (some p.2) else m k)
    (fun _ => none)

/-- The constant suffix literal used by the macOS branch filter. -/
def cameraColonChars : List Char := "Camera:".data

/-- The macOS branch: strip each output line, keep those ending in Camera:,
drop the colons, and assign sequential indices. -/
def darwinMap (lines : List (List Char)) : NamesMap :=
  enumMap
    (((lines.map stripChars).filter (fun l => hasSuf cameraColonChars l)).map
      (fun l => l.filter (fun c => !(c == ':'))))

/-- Body of get_camera_names (the code inside the outer try).  External
collaborators are oracles returning either their output lines (device name
list for pygrabber, stdout lines for v4l2-ctl and system_profiler) or the
synchronous exception they raise.  An ImportError from pygrabber is caught
by the inner except, which prints the tip and leaves the dict empty; every
other exception escapes the body.  Whenever an oracle raises, no dict
insertion has happened yet, so the partial mapping at the raise point is
empty. -/
def get_camera_names_body (sys : OSKind)
    (pygrab : Except PyExc (List (List Char)))
    (v4l2out : Except PyExc (List (List Char)))
    (profOut : Except PyExc (List (List Char))) :
    Except PyExc (NamesMap × List ListerEvent) :=
  match sys with
  | OSKind.windows =>
    match pygrab with
    | Except.ok devs => Except.ok (enumMap devs, [])
    | Except.error e =>
      if e = PyExc.importError then Except.ok ((fun _ => none), [ListerEvent.tipMsg])
      else Except.error e
  | OSKind.linux =>
    match v4l2out with
    | Except.ok lines => Except.ok (parseV4l2Lines lines none (fun _ => none), [])
    | Except.error e => Except.error e
  | OSKind.darwin =>
    match profOut with
    | Except.ok lines => Except.ok (darwinMap lines, [])
    | Except.error e => Except.error e
  | OSKind.other => Except.ok ((fun _ => none), [])

/-- Embedding of get_camera_names: the outer try catches every exception
from the body, logs a message, and returns the mapping built so far (empty
at any raise point).  The third component is the exception propagated to
the caller. -/
def get_camera_names (sys : OSKind)
    (pygrab : Except PyExc (List (List Char)))
    (v4l2out : Except PyExc (List (List Char)))
    (profOut : Except PyExc (List (List Char))) :
    NamesMap × List ListerEvent × Option PyExc :=
  match get_camera_names_body sys pygrab v4l2out profOut with
  | Except.ok (m, evs) => (m, evs, none)
  | Except.error _ => ((fun _ => none), [ListerEvent.couldNotRead], none)

/-! ## Detection loop (src/main.py)

The YOLO model is an oracle: each successfully read frame is represented
directly by the list of detections the model reports for it at the
configured confidence threshold (the threshold is applied inside the model
call, not by post-filtering, so it does not appear separately).  model.names
is the oracle names : Nat → Option (List Char).  Wall-clock readings are
clock : Nat → Rat, where clock 0 is the time.time() call before the loop
and clock (j+1) the reading taken at the j-th frame-rate recomputation.
keys n tells whether the non-blocking poll after frame n reports the quit
key.  Every print and every cv2 drawing call is recorded as an Event. -/

/-- One detection: class index and confidence score (bounding-box
coordinates play no role in any claim and are elided from the event). -/
structure Det where
  cls : Nat
  score : Rat
deriving DecidableEq

/-- The status text drawn and printed each frame (main.py line 72). -/
def statusText (phone : Bool) : List Char :=
  if phone then "PHONE DETECTED".data else "no phone".data

/-- Observable actions of one run of main: console prints and calls into
the drawing/display library. -/
inductive Event
  | loadingModelMsg
  | errCannotOpen (idx : Nat)
  | cameraOpenedMsg
  | drawBox (cls : Nat) (score : Rat)
  | overlayStatus (txt : List Char)
  | overlayFps (v : Rat)
  | imshow
  | consoleStatus (n : Nat) (txt : List Char)
  | readFailMsg
  | interruptedMsg
  | releaseCam
  | destroyWindows
  | exitingMsg
deriving DecidableEq

/-- Class-name resolution, model.names.get(cls_idx, str(cls_idx)). -/
def resolveName (names : Nat → Option (List Char)) (cls : Nat) : List Char :=
  (names cls).getD (Nat.repr cls).data

/-- The detection filter of main.py line 66: phone occurs in the lowercased
name, or cell phone occurs in the lowercased name. -/
def phoneCond (name : List Char) : Bool :=
  hasSub "phone".data (lowerChars name) || hasSub "cell phone".data (lowerChars name)

/-- The inner for loop over results.boxes (main.py lines 57-69): draw a box
for each matching detection and remember whether any detection matched. -/
def processDets (names : Nat → Option (List Char)) : List Det → List Event × Bool
  | [] => ([], false)
  | d :: rest =>
    let r := processDets names rest
    if phoneCond (resolveName names d.cls) then
      (Event.drawBox d.cls d.score :: r.1, true)
    else r

/-- Mutable loop state of main: fps_time (the stored clock baseline),
frame_count, and the index of the next wall-clock reading. -/
structure LoopState where
  fps_time : Rat
  frame_count : Nat
  clockIdx : Nat

/-- The while loop of main.py lines 46-88, started on a list of frames
(successful reads; the read after the last one fails and ends the loop).
Per frame: increment frame_count, run the detections, overlay the status
text, every 10th frame read the clock and either raise ZeroDivisionError
(when the elapsed time is zero) or overlay 10 / elapsed and reset the
baseline, then either show the frame and poll for the quit key (disp) or
print the bracketed frame count and status text.  Returns the events, the
final state, and the exception escaping the loop, if any. -/
def loopRun (names : Nat → Option (List Char)) (clock : Nat → Rat) (keys : Nat → Bool)
    (disp : Bool) : List (List Det) → LoopState → List Event × LoopState × Option PyExc
  | [], st => ([Event.readFailMsg], st, none)
  | f :: rest, st =>
    let fc := st.frame_count + 1
    let pd := processDets names f
    let evs1 := pd.1 ++ [Event.overlayStatus (statusText pd.2)]
    if fc % 10 = 0 then
      if clock st.clockIdx - st.fps_time = 0 then
        (evs1, ⟨st.fps_time, fc, st.clockIdx⟩, some PyExc.zeroDivision)
      else
        let evs2 := evs1 ++ [Event.overlayFps (10 / (clock st.clockIdx - st.fps_time))]
        let st2 : LoopState := ⟨clock st.clockIdx, fc, st.clockIdx + 1⟩
        if disp then
          if keys fc then (evs2 ++ [Event.imshow], st2, none)
          else
            let r := loopRun names clock keys disp rest st2
            (evs2 ++ [Event.imshow] ++ r.1, r.2)
        else
          let r := loopRun names clock keys disp rest st2
          (evs2 ++ [Event.consoleStatus fc (statusText pd.2)] ++ r.1, r.2)
    else
      let st2 : LoopState := ⟨st.fps_time, fc, st.clockIdx⟩
      if disp then
        if keys fc then (evs1 ++ [Event.imshow], st2, none)
        else
          let r := loopRun names clock keys disp rest st2
          (evs1 ++ [Event.imshow] ++ r.1, r.2)
      else
        let r := loopRun names clock keys disp rest st2
        (evs1 ++ [Event.consoleStatus fc (statusText pd.2)] ++ r.1, r.2)

/-- The loop state an exception-free run reaches after m frames: fps_time
is the reading taken at the last recomputation (clock 0 before any),
frame_count is m, and the next reading has index m / 10 + 1. -/
def stI (clock : Nat → Rat) (m : Nat) : LoopState :=
  ⟨clock (m / 10), m, m / 10 + 1⟩

/-- Expected events of the frame numbered n (1-based): boxes and status
overlay, the frame-rate overlay exactly when n is a multiple of 10 with
value 10 divided by the elapsed time between readings n / 10 - 1 and
n / 10, then the display call or the console status line. -/
def frameEvs (names : Nat → Option (List Char)) (clock : Nat → Rat) (disp : Bool)
    (n : Nat) (f : List Det) : List Event :=
  (processDets names f).1 ++ [Event.overlayStatus (statusText (processDets names f).2)] ++
  (if n % 10 = 0 then [Event.overlayFps (10 / (clock (n / 10) - clock (n / 10 - 1)))] else []) ++
  (if disp then [Event.imshow] else [Event.consoleStatus n (statusText (processDets names f).2)])

/-- Expected event list of an exception-free, quit-free run that has
already processed m frames: the per-frame events in order, then the
failed-read message that ends the stream. -/
def loopEventsSpec (names : Nat → Option (List Char)) (clock : Nat → Rat) (disp : Bool) :
    Nat → List (List Det) → List Event
  | _, [] => [Event.readFailMsg]
  | m, f :: rest =>
    frameEvs names clock disp (m + 1) f ++ loopEventsSpec names clock disp (m + 1) rest

/-- Projection selecting the frame-rate overlay events. -/
def fpsProj : Event → Option Rat
  | Event.overlayFps v => some v
  | _ => none

/-- Projection selecting the console status lines with their 1-based frame
count and status text. -/
def consoleProj : Event → Option (Nat × List Char)
  | Event.consoleStatus n txt => some (n, txt)
  | _ => none

/-- Embedding of main (main.py lines 28-96) after argument parsing and
model loading: print the loading message, open the camera; if the open
fails, print the error naming the index and return; otherwise print the
opened message, run the loop from frame count 0 with baseline clock 0,
catch KeyboardInterrupt (printing the interrupted message and swallowing
it), and in all loop outcomes run the finally block (release, destroy
windows, print the exit message).  The second component is the exception
propagating out of main. -/
def mainRun (cam : Nat) (names : Nat → Option (List Char)) (clock : Nat → Rat)
    (keys : Nat → Bool) (disp : Bool) (camOpened : Bool) (frames : List (List Det)) :
    List Event × Option PyExc :=
  if camOpened then
    let r := loopRun names clock keys disp frames ⟨clock 0, 0, 1⟩
    let p : List Event × Option PyExc :=
      match r.2.2 with
      | some PyExc.keyboardInterrupt => (r.1 ++ [Event.interruptedMsg], none)
      | e => (r.1, e)
    (Event.loadingModelMsg :: Event.cameraOpenedMsg ::
      (p.1 ++ [Event.releaseCam, Event.destroyWindows, Event.exitingMsg]), p.2)
  else
    ([Event.loadingModelMsg, Event.errCannotOpen cam], none)

/-- Names oracle binding class 67 to cell phone (the COCO phone class). -/
def names67 : Nat → Option (List Char) :=
  fun c => if c = 67 then some "cell phone".data else none

/-- Twenty-three frames with one phone detection on frames 5 and 17
(1-based) and no detections elsewhere. -/
def frames23 : List (List Det) :=
  (List.range 23).map
    (fun i => if i = 4 ∨ i = 16 then [⟨67, (82 : Rat) / 100⟩] else [])

/-- Integer-valued clock: reading j is the rational j, so consecutive
readings always differ by one. -/
def clkQ : Nat → Rat := fun j => (j : Rat)


/-! ## Substring lemmas -/

theorem hasPre_trans {p q l : List Char} (h1 : hasPre p q = true) (h2 : hasPre q l = true) :
    hasPre p l = true := by
  induction p generalizing q l with
  | nil => simp [hasPre]
  | cons a p ih =>
    cases q with
    | nil => simp [hasPre] at h1
    | cons b q =>
      cases l with
      | nil => simp [hasPre] at h2
      | cons c l =>
        simp only [hasPre, Bool.and_eq_true, beq_iff_eq] at h1 h2 ⊢
        exact ⟨h1.1.trans h2.1, ih h1.2 h2.2⟩

theorem hasSub_of_hasPre {p l : List Char} (h : hasPre p l = true) : hasSub p l = true := by
  cases l with
  | nil => simpa [hasSub] using h
  | cons c t => simp [hasSub, h]

theorem hasSub_of_hasPre_lift {p q l : List Char} (h1 : hasSub p q = true)
    (h2 : hasPre q l = true) : hasSub p l = true := by
  induction q generalizing l with
  | nil =>
    simp only [hasSub] at h1
    exact hasSub_of_hasPre (hasPre_trans h1 h2)
  | cons b q ih =>
    cases l with
    | nil => simp [hasPre] at h2
    | cons c l =>
      simp only [hasSub, Bool.or_eq_true] at h1
      rcases h1 with h1 | h1
      · exact hasSub_of_hasPre (hasPre_trans h1 h2)
      · simp only [hasPre, Bool.and_eq_true] at h2
        have := ih h1 h2.2
        simp [hasSub, this]

theorem hasSub_trans {p q l : List Char} (h1 : hasSub p q = true) (h2 : hasSub q l = true) :
    hasSub p l = true := by
  induction l with
  | nil =>
    simp only [hasSub] at h2
    exact hasSub_of_hasPre_lift h1 h2
  | cons c t ih =>
    simp only [hasSub, Bool.or_eq_true] at h2
    rcases h2 with h2 | h2
    · exact hasSub_of_hasPre_lift h1 h2
    · have := ih h2
      simp only [hasSub, Bool.or_eq_true]
      exact Or.inr this

/-! ## Claim C1: the detection filter -/

theorem phoneCond_redundant (s : List Char) :
    phoneCond s = hasSub "phone".data (lowerChars s) := by
  unfold phoneCond
  cases h : hasSub "cell phone".data (lowerChars s) with
  | false => simp
  | true =>
    have hp : hasSub "phone".data "cell phone".data = true := by decide
    have := hasSub_trans hp h
    simp [this]

theorem processDets_spec (names : Nat → Option (List Char)) (dets : List Det) :
    processDets names dets =
      ((dets.filter (fun d => phoneCond (resolveName names d.cls))).map
        (fun d => Event.drawBox d.cls d.score),
       dets.any (fun d => phoneCond (resolveName names d.cls))) := by
  induction dets with
  | nil => simp [processDets]
  | cons d rest ih =>
    simp only [processDets, ih]
    cases h : phoneCond (resolveName names d.cls) with
    | true => simp [List.filter_cons, h]
    | false => simp [List.filter_cons, h]

/-- C1: in the detection loop, a detection is a positive phone match if and
only if its resolved class name, lowercased, contains the substring phone:
exactly those detections get a box drawn (in order), the per-frame flag is
set exactly when at least one detection matches, and the additional cell
phone clause of the source condition is redundant, since the full condition
phoneCond equals the phone-substring test alone. -/
theorem detect_phone_filter_spec (names : Nat → Option (List Char)) (dets : List Det) :
    (processDets names dets).1 =
      ((dets.filter (fun d => hasSub "phone".data (lowerChars (resolveName names d.cls)))).map
        (fun d => Event.drawBox d.cls d.score)) ∧
    (processDets names dets).2 =
      dets.any (fun d => hasSub "phone".data (lowerChars (resolveName names d.cls))) ∧
    ∀ s : List Char, phoneCond s = hasSub "phone".data (lowerChars s) := by
  have hfun : (fun d : Det => phoneCond (resolveName names d.cls)) =
      (fun d : Det => hasSub "phone".data (lowerChars (resolveName names d.cls))) :=
    funext fun d => phoneCond_redundant (resolveName names d.cls)
  rw [processDets_spec, hfun]
  exact ⟨rfl, rfl, phoneCond_redundant⟩

/-! ## Claim C2: shape of the probed index list -/

theorem list_camera_indexes_foldl (camOpen camRead : Nat → Bool) (l : List Nat)
    (acc : List Nat) :
    l.foldl
      (fun indexes i =>
        if camOpen i then (if camRead i then indexes ++ [i] else indexes) else indexes)
      acc = acc ++ l.filter (fun i => camOpen i && camRead i) := by
  induction l generalizing acc with
  | nil => simp
  | cons i l ih =>
    simp only [List.foldl_cons, List.filter_cons]
    cases ho : camOpen i with
    | false => simp [ho, ih]
    | true =>
      cases hr : camRead i with
      | false => simp [ho, hr, ih]
      | true => simp [ho, hr, ih]

theorem list_camera_indexes_filter (camOpen camRead : Nat → Bool) (n : Nat) :
    list_camera_indexes camOpen camRead n =
      (List.range n).filter (fun i => camOpen i && camRead i) := by
  unfold list_camera_indexes
  simpa using list_camera_indexes_foldl camOpen camRead (List.range n) []

/-- C2: for every max_tested, list_camera_indexes returns exactly the
filter of 0..max_tested-1 by open-and-read success; hence it is a
subsequence of range max_tested, strictly ascending, of length at most
max_tested, and an index appears in it exactly when it is below max_tested
and both its open attempt and its single-frame read succeed (a failed index
is merely absent, never an error). -/
theorem list_camera_indexes_spec (camOpen camRead : Nat → Bool) (max_tested : Nat) :
    list_camera_indexes camOpen camRead max_tested =
      (List.range max_tested).filter (fun i => camOpen i && camRead i) ∧
    (list_camera_indexes camOpen camRead max_tested).Sublist (List.range max_tested) ∧
    List.Pairwise (fun a b => a < b) (list_camera_indexes camOpen camRead max_tested) ∧
    (list_camera_indexes camOpen camRead max_tested).length ≤ max_tested ∧
    (∀ i, i ∈ list_camera_indexes camOpen camRead max_tested ↔
      i < max_tested ∧ camOpen i = true ∧ camRead i = true) := by
  have hfil := list_camera_indexes_filter camOpen camRead max_tested
  have hsub : (list_camera_indexes camOpen camRead max_tested).Sublist
      (List.range max_tested) := by
    rw [hfil]; exact List.filter_sublist _
  refine ⟨hfil, hsub, ?_, ?_, ?_⟩
  · exact (List.pairwise_lt_range max_tested).sublist hsub
  · simpa using hsub.length_le
  · intro i
    rw [hfil]
    simp [List.mem_filter, List.mem_range, and_assoc]

/-! ## Claim C4: release of capture handles during probing -/

theorem traced_foldl (camOpen camRead : Nat → Bool) (l : List Nat)
    (acc : List Nat × List CamEvent) :
    l.foldl
      (fun acc i =>
        let acc1 : List Nat × List CamEvent := (acc.1, acc.2 ++ [CamEvent.create i])
        if camOpen i then
          let acc2 : List Nat × List CamEvent := (acc1.1, acc1.2 ++ [CamEvent.read i])
          let acc3 : List Nat × List CamEvent :=
            if camRead i then (acc2.1 ++ [i], acc2.2) else acc2
          (acc3.1, acc3.2 ++ [CamEvent.release i])
        else acc1)
      acc =
      (acc.1 ++ l.filter (fun i => camOpen i && camRead i),
       acc.2 ++ l.flatMap (probeSeg camOpen)) := by
  induction l generalizing acc with
  | nil => simp
  | cons i l ih =>
    rw [List.foldl_cons, ih]
    simp only [List.filter_cons, List.flatMap_cons]
    cases ho : camOpen i with
    | false => simp [ho, probeSeg]
    | true =>
      cases hr : camRead i with
      | false => simp [ho, hr, probeSeg]
      | true => simp [ho, hr, probeSeg]

/-- C4 counterexample: with a camera whose open attempt at index 0 fails,
the probe of one index creates a handle and never releases it, so the
original claim (every created handle is released regardless of the open
outcome) is false on the code: release is only called inside the
cap.isOpened() branch. -/
theorem probe_release_missing_cex :
    (list_camera_indexes_traced (fun _ => false) (fun _ => false) 1).2 =
      [CamEvent.create 0] ∧
    CamEvent.release 0 ∉ (list_camera_indexes_traced (fun _ => false) (fun _ => false) 1).2 := by
  decide

/-- C4 amended: the probe trace decomposes into per-index segments in probe
order; within the segment of index i the handle is created, and exactly
when its open attempt succeeds it is also read and then released before the
loop moves to the next index (so every successfully opened handle is
released within its own iteration, regardless of the read outcome, while a
handle whose open attempt fails is created but never explicitly released);
the instrumented function returns the same index list as the plain one. -/
theorem probe_release_opened (camOpen camRead : Nat → Bool) (n : Nat) (i : Nat) :
    (list_camera_indexes_traced camOpen camRead n).2 =
      (List.range n).flatMap (probeSeg camOpen) ∧
    probeSeg camOpen i =
      (if camOpen i then [CamEvent.create i, CamEvent.read i, CamEvent.release i]
       else [CamEvent.create i]) ∧
    (list_camera_indexes_traced camOpen camRead n).1 =
      list_camera_indexes camOpen camRead n := by
  have h := traced_foldl camOpen camRead (List.range n) ([], [])
  unfold list_camera_indexes_traced
  rw [h]
  refine ⟨by simp, ?_, ?_⟩
  · cases ho : camOpen i with
    | false => simp [probeSeg, ho]
    | true => simp [probeSeg, ho]
  · simp [list_camera_indexes_filter]

/-! ## Claims C5 and C9: the v4l2-ctl parsing loop -/

/-- C5 counterexample: the device-path line consisting of a tab and
/dev/video-1 has trailing characters -1 after the /dev/video prefix, which
are not a valid non-negative integer, yet the code does not skip it: Python
int accepts the sign, so an entry keyed by the negative index -1 is added,
bound to the preceding device name.  This falsifies the claim that an entry
is added only when the trailing characters are a valid non-negative
integer. -/
theorem v4l2_negative_index_cex :
    parseV4l2Lines ["Cam A".data, '\t' :: "/dev/video-1".data] none (fun _ => none) (-1) =
      some (some "Cam A".data) := by
  decide

/-- C5 amended, part of the proof: a run of the parsing loop over lines
none of whose indented /dev/video paths yield a parseable integer leaves
the mapping untouched (and, the embedding being total, does not crash);
and processing a single indented line whose split segment parses to idx
binds idx — possibly negative — to the current device name.  Python reads
dev_path.split(sep)[1] for sep = video, so the parsed text is the segment
between the first occurrence of video and the next (or the end). -/
theorem v4l2_parse_step_spec :
    (∀ (lines : List (List Char)) (dn : Option (List Char)) (names : NamesMap),
      (∀ l ∈ lines, startsTab l = true → hasSub devVideoChars (stripChars l) = true →
        pyParseInt (videoSeg (stripChars l)) = none) →
      parseV4l2Lines lines dn names = names) ∧
    (∀ (line : List Char) (rest : List (List Char)) (dn : Option (List Char))
        (names : NamesMap) (idx : Int),
      startsTab line = true → hasSub devVideoChars (stripChars line) = true →
      pyParseInt (videoSeg (stripChars line)) = some idx →
      parseV4l2Lines (line :: rest) dn names =
        parseV4l2Lines rest dn (fun k => if k = idx then some dn else names k)) := by
  constructor
  · intro lines
    induction lines with
    | nil => intro dn names _; rfl
    | cons l rest ih =>
      intro dn names h
      have hl := h l (by simp)
      have hrest : ∀ l2 ∈ rest, startsTab l2 = true →
          hasSub devVideoChars (stripChars l2) = true →
          pyParseInt (videoSeg (stripChars l2)) = none := by
        intro l2 hm; exact h l2 (by simp [hm])
      cases ht : startsTab l with
      | false => simp only [parseV4l2Lines, ht, Bool.false_eq_true, if_false]; exact ih _ _ hrest
      | true =>
        cases hv : hasSub devVideoChars (stripChars l) with
        | false =>
          simp only [parseV4l2Lines, ht, if_true, hv, Bool.false_eq_true, if_false]
          exact ih _ _ hrest
        | true =>
          have hp := hl ht hv
          simp only [parseV4l2Lines, ht, if_true, hv, hp]
          exact ih _ _ hrest
  · intro line rest dn names idx ht hv hp
    simp only [parseV4l2Lines, ht, if_true, hv, hp]

/-- C5 amended witness: the all-malformed run on the single path line
containing /dev/videoABC returns the mapping unchanged, and the signed
path line /dev/video-1 adds exactly the binding of -1 to the current
device name. -/
theorem v4l2_parse_step_spec_witness :
    parseV4l2Lines ['\t' :: "/dev/videoABC".data] (some "Cam A".data) (fun _ => none) =
      (fun _ => none) ∧
    parseV4l2Lines ['\t' :: "/dev/video-1".data] (some "Cam A".data) (fun _ => none) =
      parseV4l2Lines [] (some "Cam A".data)
        (fun k => if k = (-1 : Int) then some (some "Cam A".data) else none) := by
  constructor
  · exact v4l2_parse_step_spec.1 ['\t' :: "/dev/videoABC".data] (some "Cam A".data)
      (fun _ => none) (by decide)
  · exact v4l2_parse_step_spec.2 ('\t' :: "/dev/video-1".data) [] (some "Cam A".data)
      (fun _ => none) (-1) (by decide) (by decide) (by decide)

/-- C9 counterexample: when the path line tab /dev/video0 appears first
(before any device-name line), then a name line Cam A, then the same path
line again, the returned mapping binds 0 to the string Cam A, not to None:
the later path line rebinds the index.  So the claim that a path line
appearing before any non-indented line leaves its index bound to None in
the returned mapping is false as stated. -/
theorem v4l2_rebind_cex :
    parseV4l2Lines ['\t' :: "/dev/video0".data, "Cam A".data, '\t' :: "/dev/video0".data]
      none (fun _ => none) 0 = some (some "Cam A".data) := by
  decide

theorem parse_allTab (lines : List (List Char)) :
    ∀ (dn : Option (List Char)) (names : NamesMap) (k : Int),
      (∀ l ∈ lines, startsTab l = true) →
      parseV4l2Lines lines dn names k = names k ∨
      parseV4l2Lines lines dn names k = some dn := by
  induction lines with
  | nil => intro dn names k _; exact Or.inl rfl
  | cons l rest ih =>
    intro dn names k h
    have hl : startsTab l = true := h l (by simp)
    have hrest : ∀ l2 ∈ rest, startsTab l2 = true := by
      intro l2 hm; exact h l2 (by simp [hm])
    cases hv : hasSub devVideoChars (stripChars l) with
    | false =>
      simp only [parseV4l2Lines, hl, if_true, hv, Bool.false_eq_true, if_false]
      exact ih dn names k hrest
    | true =>
      cases hp : pyParseInt (videoSeg (stripChars l)) with
      | none =>
        simp only [parseV4l2Lines, hl, if_true, hv, hp]
        exact ih dn names k hrest
      | some idx =>
        simp only [parseV4l2Lines, hl, if_true, hv, hp]
        rcases ih dn (fun j => if j = idx then some dn else names j) k hrest with h2 | h2
        · by_cases hk : k = idx
          · rw [h2]; simp [hk]
          · rw [h2]; simp [hk]
        · exact Or.inr h2

theorem parse_stringVal (lines : List (List Char)) :
    ∀ (dn : Option (List Char)) (names : NamesMap) (k : Int) (s : List Char),
      parseV4l2Lines lines dn names k = some (some s) →
      names k = some (some s) ∨ dn = some s ∨
      ∃ l, l ∈ lines ∧ startsTab l = false ∧ stripChars l = s := by
  induction lines with
  | nil => intro dn names k s h; exact Or.inl h
  | cons l rest ih =>
    intro dn names k s h
    cases ht : startsTab l with
    | false =>
      simp only [parseV4l2Lines, ht, Bool.false_eq_true, if_false] at h
      rcases ih _ _ _ _ h with h2 | h2 | h2
      · exact Or.inl h2
      · refine Or.inr (Or.inr ⟨l, by simp, ht, ?_⟩)
        exact (Option.some.inj h2)
      · rcases h2 with ⟨l2, hm, hl2, hs2⟩
        exact Or.inr (Or.inr ⟨l2, by simp [hm], hl2, hs2⟩)
    | true =>
      have step : parseV4l2Lines (l :: rest) dn names k = some (some s) →
          (names k = some (some s) ∨ dn = some s ∨
            ∃ l2, l2 ∈ rest ∧ startsTab l2 = false ∧ stripChars l2 = s) := by
        intro h2
        cases hv : hasSub devVideoChars (stripChars l) with
        | false =>
          simp only [parseV4l2Lines, ht, if_true, hv, Bool.false_eq_true, if_false] at h2
          exact ih _ _ _ _ h2
        | true =>
          cases hp : pyParseInt (videoSeg (stripChars l)) with
          | none =>
            simp only [parseV4l2Lines, ht, if_true, hv, hp] at h2
            exact ih _ _ _ _ h2
          | some idx =>
            simp only [parseV4l2Lines, ht, if_true, hv, hp] at h2
            rcases ih _ _ _ _ h2 with h3 | h3 | h3
            · by_cases hk : k = idx
              · simp only [hk, if_true] at h3
                exact Or.inr (Or.inl (Option.some.inj h3))
              · simp only [hk, if_false] at h3
                exact Or.inl h3
            · exact Or.inr (Or.inl h3)
            · exact Or.inr (Or.inr h3)
      rcases step h with h2 | h2 | ⟨l2, hm, hl2, hs2⟩
      · exact Or.inl h2
      · exact Or.inr (Or.inl h2)
      · exact Or.inr (Or.inr ⟨l2, by simp [hm], hl2, hs2⟩)

/-- C9 amended: in the Linux branch, starting from the initial state (no
device name seen, empty dict), if every line is indented then every present
binding has value None; and whenever the returned mapping binds an index to
a string s, that string is the stripped text of some non-indented
device-name line of the input — so an index bound before any device-name
line keeps the value None unless a later path line with the same index,
processed after a device-name line, rebinds it. -/
theorem v4l2_none_binding_spec :
    (∀ (lines : List (List Char)) (k : Int),
      (∀ l ∈ lines, startsTab l = true) →
      parseV4l2Lines lines none (fun _ => none) k = none ∨
      parseV4l2Lines lines none (fun _ => none) k = some none) ∧
    (∀ (lines : List (List Char)) (k : Int) (s : List Char),
      parseV4l2Lines lines none (fun _ => none) k = some (some s) →
      ∃ l, l ∈ lines ∧ startsTab l = false ∧ stripChars l = s) := by
  constructor
  · intro lines k h
    exact parse_allTab lines none (fun _ => none) k h
  · intro lines k s h
    rcases parse_stringVal lines none (fun _ => none) k s h with h2 | h2 | h2
    · exact absurd h2 (by simp)
    · exact absurd h2 (by simp)
    · exact h2

/-- C9 amended witness: on the single all-indented line tab /dev/video0
the binding of index 0 is absent or None, and on the two-line input with a
name line before the path line the string bound to 0 is the stripped text
of a non-indented line of the input. -/
theorem v4l2_none_binding_spec_witness :
    (parseV4l2Lines ['\t' :: "/dev/video0".data] none (fun _ => none) 0 = none ∨
     parseV4l2Lines ['\t' :: "/dev/video0".data] none (fun _ => none) 0 = some none) ∧
    (∃ l, l ∈ ["Cam A".data, '\t' :: "/dev/video0".data] ∧ startsTab l = false ∧
      stripChars l = "Cam A".data) := by
  constructor
  · exact v4l2_none_binding_spec.1 ['\t' :: "/dev/video0".data] 0 (by decide)
  · exact v4l2_none_binding_spec.2 ["Cam A".data, '\t' :: "/dev/video0".data] 0
      "Cam A".data (by decide)

/-! ## Claim C6: no exception escapes the lister functions -/

/-- C6: get_camera_names never propagates an exception to its caller — for
every host OS and every oracle outcome (including a raising pygrabber
import, v4l2-ctl invocation, or system_profiler invocation), the propagated
exception component is none; whenever the body raises, the function returns
the partial mapping built at the raise point, which is empty; and
list_camera_indexes is a total function of its capture oracles — it always
returns the plain filtered index list, absence of a camera being absence
from the result, never an error. -/
theorem camera_names_no_exception (sys : OSKind)
    (pygrab v4l2out profOut : Except PyExc (List (List Char))) :
    (get_camera_names sys pygrab v4l2out profOut).2.2 = none ∧
    (∀ e, get_camera_names_body sys pygrab v4l2out profOut = Except.error e →
      ∀ k, (get_camera_names sys pygrab v4l2out profOut).1 k = none) ∧
    (∀ (camOpen camRead : Nat → Bool) (n : Nat),
      list_camera_indexes camOpen camRead n =
        (List.range n).filter (fun i => camOpen i && camRead i)) := by
  refine ⟨?_, ?_, fun camOpen camRead n => list_camera_indexes_filter camOpen camRead n⟩
  · unfold get_camera_names
    cases h : get_camera_names_body sys pygrab v4l2out profOut with
    | ok p => rfl
    | error e => rfl
  · intro e he k
    unfold get_camera_names
    rw [he]

/-- C6 witness: on Linux with a raising v4l2-ctl invocation, no exception
propagates and the returned mapping is empty at index 0. -/
theorem camera_names_no_exception_witness :
    (get_camera_names OSKind.linux (Except.ok []) (Except.error PyExc.osError)
      (Except.ok [])).2.2 = none ∧
    (get_camera_names OSKind.linux (Except.ok []) (Except.error PyExc.osError)
      (Except.ok [])).1 0 = none := by
  constructor
  · exact (camera_names_no_exception OSKind.linux (Except.ok [])
      (Except.error PyExc.osError) (Except.ok [])).1
  · exact (camera_names_no_exception OSKind.linux (Except.ok [])
      (Except.error PyExc.osError) (Except.ok [])).2.1 PyExc.osError (by rfl) 0

/-! ## Claim C8: failure to open the camera -/

/-- C8: when the camera at the requested index cannot be opened, main
prints the loading message and then the error message referencing that
index and returns: no exception propagates, the per-frame loop is never
entered (no status line, no display call, no overlay), and release is
never called on the handle that was never successfully opened. -/
theorem main_camera_open_fail (cam : Nat) (names : Nat → Option (List Char))
    (clock : Nat → Rat) (keys : Nat → Bool) (disp : Bool) (frames : List (List Det)) :
    mainRun cam names clock keys disp false frames =
      ([Event.loadingModelMsg, Event.errCannotOpen cam], none) ∧
    Event.errCannotOpen cam ∈ (mainRun cam names clock keys disp false frames).1 ∧
    Event.releaseCam ∉ (mainRun cam names clock keys disp false frames).1 ∧
    (∀ n txt, Event.consoleStatus n txt ∉ (mainRun cam names clock keys disp false frames).1) ∧
    Event.imshow ∉ (mainRun cam names clock keys disp false frames).1 ∧
    (∀ txt, Event.overlayStatus txt ∉ (mainRun cam names clock keys disp false frames).1) := by
  refine ⟨rfl, ?_, ?_, ?_, ?_, ?_⟩ <;> simp [mainRun]

/-! ## Loop execution lemmas -/

theorem loopRun_spec (names : Nat → Option (List Char)) (clock : Nat → Rat)
    (keys : Nat → Bool) (disp : Bool) (hk : disp = true → ∀ n, keys n = false)
    (hnz : ∀ j, 1 ≤ j → clock j ≠ clock (j - 1)) :
    ∀ (fs : List (List Det)) (m : Nat),
      loopRun names clock keys disp fs (stI clock m) =
        (loopEventsSpec names clock disp m fs, stI clock (m + fs.length), none) := by
  intro fs
  induction fs with
  | nil => intro m; simp [loopRun, loopEventsSpec]
  | cons f rest ih =>
    intro m
    have harr : m + (f :: rest).length = (m + 1) + rest.length := by
      simp; omega
    rw [harr]
    by_cases h10 : (m + 1) % 10 = 0
    · have hq : (m + 1) / 10 = m / 10 + 1 := by omega
      have hq1 : (m + 1) / 10 - 1 = m / 10 := by omega
      have hne : clock (m / 10 + 1) - clock (m / 10) ≠ 0 := by
        have h := hnz (m / 10 + 1) (by omega)
        simp only [Nat.add_sub_cancel] at h
        exact sub_ne_zero_of_ne h
      have hst : (⟨clock (m / 10 + 1), m + 1, m / 10 + 1 + 1⟩ : LoopState) = stI clock (m + 1) := by
        simp [stI, hq]
      cases hd : disp with
      | true =>
        have hkf : keys (m + 1) = false := hk hd (m + 1)
        rw [hd] at ih
        simp only [loopRun, stI, h10, if_true, hne, if_false, hkf, Bool.false_eq_true]
        rw [hst, ih (m + 1)]
        simp [loopEventsSpec, frameEvs, h10, hq, hq1, stI]
      | false =>
        rw [hd] at ih
        simp only [loopRun, stI, h10, if_true, hne, if_false, Bool.false_eq_true]
        rw [hst, ih (m + 1)]
        simp [loopEventsSpec, frameEvs, h10, hq, hq1, stI]
    · have hq : (m + 1) / 10 = m / 10 := by omega
      have hst : (⟨clock (m / 10), m + 1, m / 10 + 1⟩ : LoopState) = stI clock (m + 1) := by
        simp [stI, hq]
      cases hd : disp with
      | true =>
        have hkf : keys (m + 1) = false := hk hd (m + 1)
        rw [hd] at ih
        simp only [loopRun, stI, h10, if_false, hkf, Bool.false_eq_true]
        rw [hst, ih (m + 1)]
        simp [loopEventsSpec, frameEvs, h10, stI]
      | false =>
        rw [hd] at ih
        simp only [loopRun, stI, h10, if_false, Bool.false_eq_true]
        rw [hst, ih (m + 1)]
        simp [loopEventsSpec, frameEvs, h10, stI]

theorem loopRun_throw (names : Nat → Option (List Char)) (clock : Nat → Rat)
    (keys : Nat → Bool) (disp : Bool) (hk : disp = true → ∀ n, keys n = false)
    (k : Nat) (hfirst : ∀ j, 1 ≤ j → j < k → clock j ≠ clock (j - 1))
    (hz : clock k = clock (k - 1)) :
    ∀ (fs : List (List Det)) (m : Nat), m < 10 * k → 10 * k ≤ m + fs.length →
      (loopRun names clock keys disp fs (stI clock m)).2.2 = some PyExc.zeroDivision := by
  intro fs
  induction fs with
  | nil => intro m hlt hle; simp at hle; omega
  | cons f rest ih =>
    intro m hlt hle
    by_cases h10 : (m + 1) % 10 = 0
    · by_cases hjk : m + 1 = 10 * k
      · have hq : m / 10 + 1 = k := by omega
        have hq1 : m / 10 = k - 1 := by omega
        have hzero : clock (m / 10 + 1) - clock (m / 10) = 0 := by
          rw [hq, hq1, hz, sub_self]
        simp only [loopRun, stI, h10, if_true, hzero, if_true]
      · have hlt2 : m + 1 < 10 * k := by omega
        have hq : (m + 1) / 10 = m / 10 + 1 := by omega
        have hne : clock (m / 10 + 1) - clock (m / 10) ≠ 0 := by
          have h := hfirst (m / 10 + 1) (by omega) (by omega)
          simp only [Nat.add_sub_cancel] at h
          exact sub_ne_zero_of_ne h
        have hst : (⟨clock (m / 10 + 1), m + 1, m / 10 + 1 + 1⟩ : LoopState) =
            stI clock (m + 1) := by
          simp [stI, hq]
        have hle2 : 10 * k ≤ (m + 1) + rest.length := by
          simp at hle; omega
        cases hd : disp with
        | true =>
          have hkf : keys (m + 1) = false := hk hd (m + 1)
          rw [hd] at ih
          simp only [loopRun, stI, h10, if_true, hne, if_false, hkf, Bool.false_eq_true]
          rw [hst]
          exact ih (m + 1) hlt2 hle2
        | false =>
          rw [hd] at ih
          simp only [loopRun, stI, h10, if_true, hne, if_false, Bool.false_eq_true]
          rw [hst]
          exact ih (m + 1) hlt2 hle2
    · have hlt2 : m + 1 < 10 * k := by omega
      have hq : (m + 1) / 10 = m / 10 := by omega
      have hst : (⟨clock (m / 10), m + 1, m / 10 + 1⟩ : LoopState) = stI clock (m + 1) := by
        simp [stI, hq]
      have hle2 : 10 * k ≤ (m + 1) + rest.length := by
        simp at hle; omega
      cases hd : disp with
      | true =>
        have hkf : keys (m + 1) = false := hk hd (m + 1)
        rw [hd] at ih
        simp only [loopRun, stI, h10, if_false, hkf, Bool.false_eq_true]
        rw [hst]
        exact ih (m + 1) hlt2 hle2
      | false =>
        rw [hd] at ih
        simp only [loopRun, stI, h10, if_false, Bool.false_eq_true]
        rw [hst]
        exact ih (m + 1) hlt2 hle2

theorem processDets_filterMap_console (names : Nat → Option (List Char)) (f : List Det) :
    (processDets names f).1.filterMap consoleProj = [] := by
  rw [processDets_spec]
  simp [List.filterMap_map, consoleProj, Function.comp]

theorem processDets_filterMap_fps (names : Nat → Option (List Char)) (f : List Det) :
    (processDets names f).1.filterMap fpsProj = [] := by
  rw [processDets_spec]
  simp [List.filterMap_map, fpsProj, Function.comp]

theorem loopEventsSpec_console (names : Nat → Option (List Char)) (clock : Nat → Rat) :
    ∀ (fs : List (List Det)) (m : Nat),
      (loopEventsSpec names clock false m fs).filterMap consoleProj =
        (List.range fs.length).map
          (fun i => (m + i + 1, statusText (processDets names (fs.getD i [])).2)) := by
  intro fs
  induction fs with
  | nil => intro m; simp [loopEventsSpec, consoleProj]
  | cons f rest ih =>
    intro m
    have hfe : (frameEvs names clock false (m + 1) f).filterMap consoleProj =
        [(m + 1, statusText (processDets names f).2)] := by
      by_cases h : (m + 1) % 10 = 0 <;>
        simp [frameEvs, h, List.filterMap_append, processDets_filterMap_console, consoleProj]
    simp only [loopEventsSpec, List.filterMap_append, hfe, ih (m + 1)]
    rw [List.length_cons, List.range_succ_eq_map, List.map_cons, List.map_map]
    have htail : (List.range rest.length).map
        ((fun i => (m + i + 1, statusText (processDets names ((f :: rest).getD i [])).2)) ∘
          Nat.succ) =
        (List.range rest.length).map
          (fun i => (m + 1 + i + 1, statusText (processDets names (rest.getD i [])).2)) := by
      apply List.map_congr_left
      intro a ha
      simp only [Function.comp_apply, List.getD_cons_succ, Prod.mk.injEq]
      exact ⟨by omega, by trivial⟩
    rw [htail]
    simp

theorem loopEventsSpec_fps (names : Nat → Option (List Char)) (clock : Nat → Rat)
    (disp : Bool) :
    ∀ (fs : List (List Det)) (m : Nat),
      (loopEventsSpec names clock disp m fs).filterMap fpsProj =
        (List.range ((m + fs.length) / 10 - m / 10)).map
          (fun i => 10 / (clock (m / 10 + i + 1) - clock (m / 10 + i))) := by
  intro fs
  induction fs with
  | nil => intro m; simp [loopEventsSpec, fpsProj]
  | cons f rest ih =>
    intro m
    have hlen : m + (f :: rest).length = (m + 1) + rest.length := by simp; omega
    rw [hlen]
    by_cases h10 : (m + 1) % 10 = 0
    · have hq : (m + 1) / 10 = m / 10 + 1 := by omega
      have hcnt : ((m + 1) + rest.length) / 10 - m / 10 =
          (((m + 1) + rest.length) / 10 - (m + 1) / 10) + 1 := by omega
      have hfe : (frameEvs names clock disp (m + 1) f).filterMap fpsProj =
          [10 / (clock (m / 10 + 1) - clock (m / 10))] := by
        cases hd : disp <;>
          simp [frameEvs, h10, hq, List.filterMap_append, processDets_filterMap_fps, fpsProj]
      simp only [loopEventsSpec, List.filterMap_append, hfe, ih (m + 1)]
      rw [hcnt, List.range_succ_eq_map, List.map_cons, List.map_map]
      have htail : (List.range ((m + 1 + rest.length) / 10 - (m + 1) / 10)).map
          ((fun i => 10 / (clock (m / 10 + i + 1) - clock (m / 10 + i))) ∘ Nat.succ) =
          (List.range ((m + 1 + rest.length) / 10 - (m + 1) / 10)).map
            (fun i => 10 / (clock ((m + 1) / 10 + i + 1) - clock ((m + 1) / 10 + i))) := by
        apply List.map_congr_left
        intro a ha
        simp only [Function.comp_apply, hq]
        congr 3 <;> omega
      rw [htail]
      simp
    · have hq : (m + 1) / 10 = m / 10 := by omega
      have hfe : (frameEvs names clock disp (m + 1) f).filterMap fpsProj = [] := by
        cases hd : disp <;>
          simp [frameEvs, h10, List.filterMap_append, processDets_filterMap_fps, fpsProj]
      simp only [loopEventsSpec, List.filterMap_append, hfe, ih (m + 1), hq,
        List.nil_append]

/-! ## Claims C3, C7, C10 -/

/-- C3: with display disabled and consecutive clock readings distinct (so
no ZeroDivisionError fires), the loop prints exactly one console status
line per successfully read frame, in order, carrying the 1-based frame
count and the status text of that frame — which is PHONE DETECTED when the
frame had a phone-like detection and no phone otherwise. -/
theorem console_status_lines (names : Nat → Option (List Char)) (clock : Nat → Rat)
    (keys : Nat → Bool) (frames : List (List Det))
    (hnz : ∀ j, 1 ≤ j → clock j ≠ clock (j - 1)) :
    (loopRun names clock keys false frames (stI clock 0)).1.filterMap consoleProj =
      (List.range frames.length).map
        (fun i => (i + 1, statusText (processDets names (frames.getD i [])).2)) ∧
    statusText true = "PHONE DETECTED".data ∧ statusText false = "no phone".data := by
  have hk : (false : Bool) = true → ∀ n, keys n = false := fun h => absurd h (by decide)
  refine ⟨?_, rfl, rfl⟩
  rw [loopRun_spec names clock keys false hk hnz frames 0]
  rw [show ((loopEventsSpec names clock false 0 frames, stI clock (0 + frames.length),
      (none : Option PyExc))).1 = loopEventsSpec names clock false 0 frames from rfl]
  rw [loopEventsSpec_console names clock frames 0]
  simp

theorem clkQ_sep : ∀ j : Nat, 1 ≤ j → clkQ j ≠ clkQ (j - 1) := by
  intro j hj hc
  have h2 : j = j - 1 := Nat.cast_injective hc
  omega

/-- C3 witness: on the 23-frame instance with phones on frames 5 and 17
only, the console status lines are exactly the 23 lines with PHONE
DETECTED on lines 5 and 17 and no phone elsewhere. -/
theorem console_status_lines_witness :
    (loopRun names67 clkQ (fun _ => false) false frames23 (stI clkQ 0)).1.filterMap
        consoleProj =
      (List.range 23).map
        (fun i => (i + 1,
          if i = 4 ∨ i = 16 then "PHONE DETECTED".data else "no phone".data)) := by
  have h := (console_status_lines names67 clkQ (fun _ => false) frames23 clkQ_sep).1
  rw [h]
  decide

/-- C7: with no quit keypress and consecutive clock readings distinct, the
loop events are exactly the per-frame events of frameEvs — whose frame-rate
overlay appears exactly on the frames whose 1-based count is a multiple of
10; the frame-rate overlays, in order, carry the values 10 divided by the
elapsed time between consecutive clock readings, beginning with the reading
taken just before the loop started; and after any prefix of m frames the
stored baseline fps_time is the reading taken at the last recomputation,
clock (m / 10) — so the baseline changes exactly at the recomputations. -/
theorem fps_overlay_schedule (names : Nat → Option (List Char)) (clock : Nat → Rat)
    (keys : Nat → Bool) (disp : Bool) (frames : List (List Det))
    (hk : disp = true → ∀ n, keys n = false)
    (hnz : ∀ j, 1 ≤ j → clock j ≠ clock (j - 1)) :
    (loopRun names clock keys disp frames (stI clock 0)).1 =
      loopEventsSpec names clock disp 0 frames ∧
    (loopRun names clock keys disp frames (stI clock 0)).1.filterMap fpsProj =
      (List.range (frames.length / 10)).map (fun j => 10 / (clock (j + 1) - clock j)) ∧
    (∀ m, m ≤ frames.length →
      (loopRun names clock keys disp (frames.take m) (stI clock 0)).2.1.fps_time =
        clock (m / 10)) := by
  have hmain := loopRun_spec names clock keys disp hk hnz frames 0
  refine ⟨by rw [hmain], ?_, ?_⟩
  · rw [hmain]
    rw [show ((loopEventsSpec names clock disp 0 frames, stI clock (0 + frames.length),
        (none : Option PyExc))).1 = loopEventsSpec names clock disp 0 frames from rfl]
    rw [loopEventsSpec_fps names clock disp frames 0]
    simp
  · intro m hm
    rw [loopRun_spec names clock keys disp hk hnz (frames.take m) 0]
    simp [stI, Nat.min_eq_left hm]

/-- C7 witness: on 20 empty frames with the integer-valued clock and no
quit key, the frame-rate overlays are exactly the two values for frames 10
and 20. -/
theorem fps_overlay_schedule_witness :
    (loopRun (fun _ => none) clkQ (fun _ => false) false (List.replicate 20 [])
        (stI clkQ 0)).1.filterMap fpsProj =
      (List.range 2).map (fun j => 10 / (clkQ (j + 1) - clkQ j)) := by
  have h := (fps_overlay_schedule (fun _ => none) clkQ (fun _ => false) false
    (List.replicate 20 []) (fun hd => absurd hd (by decide)) clkQ_sep).2.1
  simpa using h

/-- C10: the frame-rate computation guards nothing: whenever the reading at
some 10th frame equals the stored baseline (the previous reading, k being
the first recomputation where this happens) and the stream supplies at
least 10 k frames, the division raises ZeroDivisionError; the exception is
not caught by the loop's KeyboardInterrupt handler and propagates out of
main, while the finally block still runs — release, window teardown and the
exit message form a suffix of the event trace. -/
theorem fps_zero_division_propagates (cam : Nat) (names : Nat → Option (List Char))
    (clock : Nat → Rat) (keys : Nat → Bool) (disp : Bool) (frames : List (List Det))
    (k : Nat) (hk : disp = true → ∀ n, keys n = false) (hk1 : 1 ≤ k)
    (hfirst : ∀ j, 1 ≤ j → j < k → clock j ≠ clock (j - 1))
    (hz : clock k = clock (k - 1)) (hlen : 10 * k ≤ frames.length) :
    (mainRun cam names clock keys disp true frames).2 = some PyExc.zeroDivision ∧
    [Event.releaseCam, Event.destroyWindows, Event.exitingMsg] <:+
      (mainRun cam names clock keys disp true frames).1 := by
  have hst0 : stI clock 0 = (⟨clock 0, 0, 1⟩ : LoopState) := rfl
  have h22 : (loopRun names clock keys disp frames ⟨clock 0, 0, 1⟩).2.2 =
      some PyExc.zeroDivision := by
    rw [← hst0]
    exact loopRun_throw names clock keys disp hk k hfirst hz frames 0 (by omega)
      (by omega)
  constructor
  · simp [mainRun, h22]
  · have hs1 : [Event.releaseCam, Event.destroyWindows, Event.exitingMsg] <:+
        (loopRun names clock keys disp frames ⟨clock 0, 0, 1⟩).1 ++
          [Event.releaseCam, Event.destroyWindows, Event.exitingMsg] :=
      List.suffix_append _ _
    have hs2 := hs1.trans (List.suffix_cons Event.cameraOpenedMsg _)
    have hs3 := hs2.trans (List.suffix_cons Event.loadingModelMsg _)
    simpa [mainRun, h22] using hs3

/-- C10 witness: with a constant clock (reading 1 equals the baseline
reading 0) and 10 frames, main propagates ZeroDivisionError and the
cleanup events still close the trace. -/
theorem fps_zero_division_propagates_witness :
    (mainRun 0 (fun _ => none) (fun _ => 0) (fun _ => false) false true
      (List.replicate 10 [])).2 = some PyExc.zeroDivision ∧
    [Event.releaseCam, Event.destroyWindows, Event.exitingMsg] <:+
      (mainRun 0 (fun _ => none) (fun _ => 0) (fun _ => false) false true
        (List.replicate 10 [])).1 :=
  fps_zero_division_propagates 0 (fun _ => none) (fun _ => 0) (fun _ => false) false
    (List.replicate 10 []) 1 (fun h => absurd h (by decide)) (by decide)
    (by intro j h1 h2; omega) rfl (by decide)
